import Mathlib

/-!
Formal model of the incremental-compilation QAOA engine of MQTProblemSolver
(`src/mqt/problemsolver/partialcompiler`).  The Python code is embedded
shallowly: pure circuit construction becomes Lean functions on instruction
lists, the stateful parts of the `Partial_QAOA` class become explicit state
passing, the external Qiskit transpiler is modelled through the arguments it
receives, and randomness is modelled by a stream of Boolean draws.
-/

namespace PartialCompiler

/-- Qubit pair, stored as the Python tuple `(i, j)` that the source builds. -/
abbrev Edge := Nat × Nat

/-- Outcomes of the successive calls of the random source: `r k = true` models the
`k`-th call of `np.random.random()` returning a value below the module constant
`P_SAMPLE_TWO_QUBIT_GATE = 0.5`. -/
abbrev Draws := Nat → Bool

/-- Sequential Bernoulli sampling of a candidate list, one draw per candidate,
starting at stream position `k`; returns the retained candidates (in order) and
the next stream position.  This is the shape of both sampling loops of
`Partial_QAOA.__init__`. -/
def sampleEdges (r : Draws) (k : Nat) : List Edge → List Edge × Nat
  | [] => ([], k)
  | e :: es =>
    let rest := sampleEdges r (k + 1) es
    (if r k then e :: rest.1 else rest.1, rest.2)

/-- Candidates of the offline loop of `Partial_QAOA.__init__`: `(0, i)` for
`i in range(1, num_qubits)`. -/
def offlineCandidates (n : Nat) : List Edge :=
  (List.range' 1 (n - 1)).map (fun i => (0, i))

/-- Candidates of the online loop of `Partial_QAOA.__init__`: `(i, j)` for
`i in range(1, num_qubits)` and `j in range(i + 1, num_qubits)`. -/
def onlineCandidates (n : Nat) : List Edge :=
  (List.range' 1 (n - 1)).flatMap (fun i => (List.range' (i + 1) (n - 1 - i)).map (fun j => (i, j)))

/-- Value of `self.offline_time_edges` after `__init__`: the offline candidates,
sampled first (draw positions `0 .. n-2`). -/
def offline_time_edges (n : Nat) (r : Draws) : List Edge :=
  (sampleEdges r 0 (offlineCandidates n)).1

/-- Value of `self.online_time_edges` after `__init__`: the online candidates,
sampled with the draws following the offline loop. -/
def online_time_edges (n : Nat) (r : Draws) : List Edge :=
  (sampleEdges r (sampleEdges r 0 (offlineCandidates n)).2 (onlineCandidates n)).1

lemma sampleEdges_fst_sublist (r : Draws) (k : Nat) (es : List Edge) :
    (sampleEdges r k es).1.Sublist es := by
  induction es generalizing k with
  | nil => exact List.Sublist.refl _
  | cons e es ih =>
    simp only [sampleEdges]
    split
    · exact (ih (k + 1)).cons₂ e
    · exact (ih (k + 1)).cons e

lemma mem_offlineCandidates (n : Nat) (e : Edge) :
    e ∈ offlineCandidates n ↔ e.1 = 0 ∧ 1 ≤ e.2 ∧ e.2 < n := by
  cases e with
  | mk i j =>
    simp only [offlineCandidates, List.mem_map, List.mem_range'_1, Prod.mk.injEq]
    constructor
    · rintro ⟨x, ⟨hx1, hx2⟩, rfl, rfl⟩
      omega
    · rintro ⟨rfl, h1, h2⟩
      exact ⟨j, ⟨h1, by omega⟩, rfl, rfl⟩

lemma mem_onlineCandidates (n : Nat) (e : Edge) :
    e ∈ onlineCandidates n ↔ 1 ≤ e.1 ∧ e.1 < e.2 ∧ e.2 < n := by
  cases e with
  | mk i j =>
    simp only [onlineCandidates, List.mem_flatMap, List.mem_map, List.mem_range'_1, Prod.mk.injEq]
    constructor
    · rintro ⟨x, ⟨hx1, hx2⟩, y, ⟨hy1, hy2⟩, rfl, rfl⟩
      omega
    · rintro ⟨h1, h2, h3⟩
      exact ⟨i, ⟨h1, by omega⟩, j, ⟨by omega, by omega⟩, rfl, rfl⟩

lemma offline_not_online (n : Nat) (r : Draws) (e : Edge)
    (he : e ∈ offline_time_edges n r) : e ∉ online_time_edges n r := by
  intro ho
  have h1 : e ∈ offlineCandidates n :=
    (sampleEdges_fst_sublist r 0 (offlineCandidates n)).subset he
  have h2 : e ∈ onlineCandidates n :=
    (sampleEdges_fst_sublist r _ (onlineCandidates n)).subset ho
  have hz := ((mem_offlineCandidates n e).mp h1).1
  have hp := ((mem_onlineCandidates n e).mp h2).1
  omega

/-- C2: for every generated problem instance (any `num_qubits` and any outcome of the
random draws), the offline and online interaction sets are disjoint: every offline
edge pairs the reference qubit `0`, while every online edge joins two nonzero
qubits, so no qubit pair appears in both lists. -/
theorem offline_online_disjoint (n : Nat) (r : Draws) (e : Edge)
    (he : e ∈ offline_time_edges n r) : e ∉ online_time_edges n r :=
  offline_not_online n r e he

theorem offline_online_disjoint_witness :
    ((0 : Nat), (1 : Nat)) ∉ online_time_edges 3 (fun _ => true) :=
  offline_online_disjoint 3 (fun _ => true) (0, 1) (by decide)

/-- Symbolic rotation parameters: `Param.a r` models `Parameter("a_r")` (interaction
angle of repetition `r`), `Param.b r` models `Parameter("b_r")` (mixing angle of
repetition `r`). -/
inductive Param where
  | a (r : Nat)
  | b (r : Nat)
deriving DecidableEq, Repr

/-- Circuit instructions appearing in the uncompiled circuits of `Partial_QAOA`:
`h q` is the Hadamard of the preparation layer, `rzz p i j` the two-qubit phase
rotation `rzz(p, i, j)`, `rx p q` the mixer rotation `rx(2*p, q)`, and `barrier`
the barriers the source inserts. -/
inductive Instr where
  | h (q : Nat)
  | rzz (p : Param) (i j : Nat)
  | rx (p : Param) (q : Nat)
  | barrier
deriving DecidableEq, Repr

abbrev Circuit := List Instr

/-- State-preparation circuit `qc_prep`: `h` on every qubit, then a barrier. -/
def qc_prep (n : Nat) : Circuit :=
  (List.range n).map Instr.h ++ [Instr.barrier]

/-- Problem circuit of repetition `i`: `rzz(a_i, ...)` over the offline edges, then,
when `include_online_edges` is set, over the online edges. -/
def qc_problem (offline online : List Edge) (include_online_edges : Bool) (i : Nat) :
    Circuit :=
  offline.map (fun e => Instr.rzz (Param.a i) e.1 e.2) ++
    (if include_online_edges then online.map (fun e => Instr.rzz (Param.a i) e.1 e.2) else [])

/-- Mixer circuit of repetition `i`: barrier, `rx(2*b_i)` on every qubit, barrier. -/
def qc_mix (n i : Nat) : Circuit :=
  [Instr.barrier] ++ (List.range n).map (Instr.rx (Param.b i)) ++ [Instr.barrier]

/-- List `qcs_problem` built by the loop of `get_uncompiled_circuit`. -/
def qcs_problem (reps : Nat) (offline online : List Edge) (include_online_edges : Bool) :
    List Circuit :=
  (List.range reps).map (qc_problem offline online include_online_edges)

/-- List `qcs_mix` built by the loop of `get_uncompiled_circuit`. -/
def qcs_mix (n reps : Nat) : List Circuit :=
  (List.range reps).map (qc_mix n)

/-- List `self.problem_parameters` populated by the loop of `get_uncompiled_circuit`. -/
def problem_parameters (reps : Nat) : List Param :=
  (List.range reps).map Param.a

/-- Composition loop closing `get_uncompiled_circuit` (the same loop is repeated in
`determine_mapping`): starting from `qc_prep`, compose the problem and the mixer
circuit of each repetition, in order. -/
def composeLoop (prep : Circuit) (ps ms : List Circuit) : Circuit :=
  (ps.zip ms).foldl (fun acc pm => acc ++ pm.1 ++ pm.2) prep

/-- Result of `get_uncompiled_circuit(include_online_edges, return_as_one_circuit=True)`. -/
def get_uncompiled_circuit (n reps : Nat) (offline online : List Edge)
    (include_online_edges : Bool) : Circuit :=
  composeLoop (qc_prep n) (qcs_problem reps offline online include_online_edges)
    (qcs_mix n reps)

/-- Interaction set actually laid down in each problem layer. -/
def interactionSet (offline online : List Edge) (include_online_edges : Bool) : List Edge :=
  offline ++ if include_online_edges then online else []

/-- Layered normal form of the composed circuit: preparation layer, then for each
repetition the interaction layer followed by the mixer layer. -/
def layeredCircuit (n reps : Nat) (edges : List Edge) : Circuit :=
  qc_prep n ++ (List.range reps).flatMap
    (fun rIdx => edges.map (fun e => Instr.rzz (Param.a rIdx) e.1 e.2) ++ qc_mix n rIdx)

lemma foldl_append_pair (l : List (Circuit × Circuit)) (prep : Circuit) :
    l.foldl (fun acc pm => acc ++ pm.1 ++ pm.2) prep
      = prep ++ l.flatMap (fun pm => pm.1 ++ pm.2) := by
  induction l generalizing prep with
  | nil => simp
  | cons pm l ih =>
    rw [List.foldl_cons, ih, List.flatMap_cons]
    simp [List.append_assoc]

lemma qc_problem_eq_map (offline online : List Edge) (flag : Bool) (i : Nat) :
    qc_problem offline online flag i
      = (interactionSet offline online flag).map (fun e => Instr.rzz (Param.a i) e.1 e.2) := by
  unfold qc_problem interactionSet
  rw [List.map_append]
  cases flag <;> simp

lemma get_uncompiled_circuit_eq_layered (n reps : Nat) (offline online : List Edge)
    (flag : Bool) :
    get_uncompiled_circuit n reps offline online flag
      = layeredCircuit n reps (interactionSet offline online flag) := by
  unfold get_uncompiled_circuit composeLoop layeredCircuit qcs_problem qcs_mix
  rw [List.zip_map', foldl_append_pair, List.flatMap_map]
  simp only [Function.comp, qc_problem_eq_map]

/-- Symbolic parameter carried by an instruction, if any. -/
def instrParam : Instr → Option Param
  | Instr.rzz p _ _ => some p
  | Instr.rx p _ => some p
  | _ => none

/-- Sequence of parameter occurrences of a circuit, in instruction order. -/
def paramOccurrences (c : Circuit) : List Param :=
  c.filterMap instrParam

/-- Parameter list predicted by the specification: the interaction and the mixing
angle of every repetition, grouped by ascending repetition index. -/
def expectedParams (reps : Nat) : List Param :=
  (List.range reps).flatMap (fun rIdx => [Param.a rIdx, Param.b rIdx])

lemma filterMap_flatMap {α β γ : Type} (l : List α) (g : α → List β) (f : β → Option γ) :
    (l.flatMap g).filterMap f = l.flatMap (fun x => (g x).filterMap f) := by
  induction l with
  | nil => simp
  | cons x l ih => simp [List.flatMap_cons, List.filterMap_append, ih]

lemma filterMap_const_some {α β : Type} (l : List α) (c : β) :
    l.filterMap (fun _ => some c) = List.replicate l.length c := by
  induction l with
  | nil => simp
  | cons x l ih => simp [List.replicate_succ, ih]

lemma paramOccurrences_layered (n reps : Nat) (E : List Edge) :
    paramOccurrences (layeredCircuit n reps E)
      = (List.range reps).flatMap (fun rIdx =>
          List.replicate E.length (Param.a rIdx) ++ List.replicate n (Param.b rIdx)) := by
  unfold paramOccurrences layeredCircuit qc_prep qc_mix
  rw [List.filterMap_append, filterMap_flatMap]
  have hprep : (((List.range n).map Instr.h) ++ [Instr.barrier]).filterMap instrParam = [] := by
    rw [List.filterMap_append, List.filterMap_map]
    simp [instrParam, Function.comp, List.filterMap_cons]
  rw [hprep, List.nil_append]
  congr 1
  funext rIdx
  have h1 : (instrParam ∘ fun e : Edge => Instr.rzz (Param.a rIdx) e.1 e.2)
      = fun _ => some (Param.a rIdx) := rfl
  have h2 : (instrParam ∘ Instr.rx (Param.b rIdx)) = fun _ => some (Param.b rIdx) := rfl
  rw [List.filterMap_append, List.filterMap_append, List.filterMap_append,
    List.filterMap_map, List.filterMap_map, h1, h2, filterMap_const_some,
    filterMap_const_some]
  simp [instrParam, List.filterMap_cons]

lemma mem_expectedParams (reps : Nat) (p : Param) :
    p ∈ expectedParams reps ↔ ∃ rIdx, rIdx < reps ∧ (p = Param.a rIdx ∨ p = Param.b rIdx) := by
  simp only [expectedParams, List.mem_flatMap, List.mem_range, List.mem_cons,
    List.mem_singleton]
  constructor
  · rintro ⟨rIdx, hr, hp⟩
    exact ⟨rIdx, hr, by tauto⟩
  · rintro ⟨rIdx, hr, hp⟩
    exact ⟨rIdx, hr, by tauto⟩

lemma expectedParams_nodup (reps : Nat) : (expectedParams reps).Nodup := by
  induction reps with
  | zero => simp [expectedParams]
  | succ m ih =>
    have hsplit : expectedParams (m + 1)
        = expectedParams m ++ [Param.a m, Param.b m] := by
      unfold expectedParams
      rw [List.range_succ, List.flatMap_append]
      simp
    rw [hsplit, List.nodup_append]
    refine ⟨ih, by simp, ?_⟩
    intro p hp hmem
    rcases (mem_expectedParams m p).mp hp with ⟨rIdx, hr, hcase⟩
    rcases hcase with rfl | rfl <;> simp at hmem <;> omega

lemma expectedParams_length (reps : Nat) : (expectedParams reps).length = 2 * reps := by
  induction reps with
  | zero => simp [expectedParams]
  | succ m ih =>
    have hsplit : expectedParams (m + 1)
        = expectedParams m ++ [Param.a m, Param.b m] := by
      unfold expectedParams
      rw [List.range_succ, List.flatMap_append]
      simp
    have h2 : ([Param.a m, Param.b m] : List Param).length = 2 := rfl
    rw [hsplit, List.length_append, ih, h2]
    omega

/-- C7 (amended): for `num_qubits ≥ 1` and a nonempty interaction set, the composed
uncompiled circuit is exactly the preparation layer followed, for each repetition in
ascending order, by the interaction layer (one `rzz` with that repetition's
interaction angle per pair of the interaction set) and the mixer layer (one `rx`
with that repetition's mixing angle per qubit); its parameter occurrences are
grouped by ascending repetition, and the distinct parameters are exactly the
`2 × repetitions` angles, one interaction and one mixing angle per repetition.
When the interaction set is empty the interaction angles do not occur in the
circuit, which is the correction to the claim. -/
theorem uncompiled_circuit_structure_params (n reps : Nat) (offline online : List Edge)
    (flag : Bool) (hn : 1 ≤ n) (hE : interactionSet offline online flag ≠ []) :
    get_uncompiled_circuit n reps offline online flag
        = layeredCircuit n reps (interactionSet offline online flag)
      ∧ paramOccurrences (get_uncompiled_circuit n reps offline online flag)
        = (List.range reps).flatMap (fun rIdx =>
            List.replicate (interactionSet offline online flag).length (Param.a rIdx)
              ++ List.replicate n (Param.b rIdx))
      ∧ (∀ p : Param,
          p ∈ paramOccurrences (get_uncompiled_circuit n reps offline online flag)
            ↔ p ∈ expectedParams reps)
      ∧ (expectedParams reps).Nodup
      ∧ (expectedParams reps).length = 2 * reps := by
  have hlay := get_uncompiled_circuit_eq_layered n reps offline online flag
  have hocc : paramOccurrences (get_uncompiled_circuit n reps offline online flag)
      = (List.range reps).flatMap (fun rIdx =>
          List.replicate (interactionSet offline online flag).length (Param.a rIdx)
            ++ List.replicate n (Param.b rIdx)) := by
    rw [hlay, paramOccurrences_layered]
  refine ⟨hlay, hocc, ?_, expectedParams_nodup reps, expectedParams_length reps⟩
  intro p
  rw [hocc, mem_expectedParams]
  have hEl : (interactionSet offline online flag).length ≠ 0 := by
    simpa [List.length_eq_zero] using hE
  simp only [List.mem_flatMap, List.mem_range, List.mem_append, List.mem_replicate]
  constructor
  · rintro ⟨rIdx, hr, hp⟩
    rcases hp with ⟨_, rfl⟩ | ⟨_, rfl⟩
    · exact ⟨rIdx, hr, Or.inl rfl⟩
    · exact ⟨rIdx, hr, Or.inr rfl⟩
  · rintro ⟨rIdx, hr, hp⟩
    rcases hp with rfl | rfl
    · exact ⟨rIdx, hr, Or.inl ⟨hEl, rfl⟩⟩
    · exact ⟨rIdx, hr, Or.inr ⟨by omega, rfl⟩⟩

theorem uncompiled_circuit_structure_params_witness :
    paramOccurrences (get_uncompiled_circuit 2 1 [(0, 1)] [] true)
      = (List.range 1).flatMap (fun rIdx =>
          List.replicate (interactionSet [(0, 1)] [] true).length (Param.a rIdx)
            ++ List.replicate 2 (Param.b rIdx)) :=
  (uncompiled_circuit_structure_params 2 1 [(0, 1)] [] true (by decide) (by decide)).2.1

/-- C7 counterexample: for `num_qubits = 1` and `repetitions = 1` the generated
instance has empty interaction sets, the interaction angle never occurs in the
circuit, and the circuit carries a single distinct symbolic parameter instead of
the claimed `2 × repetitions = 2`. -/
theorem uncompiled_circuit_param_count_cex :
    ¬ ((paramOccurrences (get_uncompiled_circuit 1 1 (offline_time_edges 1 (fun _ => true))
          (online_time_edges 1 (fun _ => true)) true)).dedup.length = 2 * 1) := by
  decide

/-- Indices (ascending) of the positions of a list whose element satisfies `p`. -/
def idxWhere {α : Type} (p : α → Bool) : List α → List Nat
  | [] => []
  | x :: xs => (if p x then [0] else []) ++ (idxWhere p xs).map (· + 1)

/-- Modelled from the spec: the Gate Attribution Map of the Gate Index Resolver
(`QAOA.get_to_be_checked_gates` of `qaoa.py`, which is not part of the source
tree).  The external Compiler Adapter is modelled as the identity on instruction
sequences, so the recompile-and-diff strategy of the spec attributes to the
online interaction `e` exactly the positions of the two-qubit rotations acting on
that pair. -/
def gateAttribution (qc : Circuit) (e : Edge) : List Nat :=
  idxWhere (fun ins => match ins with
    | Instr.rzz _ i j => decide ((i, j) = e)
    | _ => false) qc

/-- Test for an instruction attributable to an absent online interaction: a
two-qubit rotation whose pair is an online interaction that the realization
dropped. -/
def removedByRealization (online : List Edge) (keep : Edge → Bool) (ins : Instr) : Bool :=
  match ins with
  | Instr.rzz _ i j => decide ((i, j) ∈ online) && ! keep (i, j)
  | _ => false

/-- Modelled from the spec: removal positions of the Splice Engine — the union of
the attribution sets of the absent online interactions, listed in descending
position order (the lemma `mem_removalPositions` below relates this list to
`gateAttribution`). -/
def removalPositions (qc : Circuit) (online : List Edge) (keep : Edge → Bool) : List Nat :=
  (idxWhere (removedByRealization online keep) qc).reverse

/-- Modelled from the spec: the Splice Engine (`QAOA.check_gates` of `qaoa.py`,
which is not part of the source tree): remove the instructions at the removal
positions, in descending position order.  The optional swap re-optimization pass
only re-invokes the external Compiler Adapter, which the model takes as the
identity, so both values of `optimize_swaps` coincide here. -/
def check_gates (qc : Circuit) (online : List Edge) (keep : Edge → Bool) : Circuit :=
  (removalPositions qc online keep).foldl List.eraseIdx qc

lemma mem_idxWhere {α : Type} (p : α → Bool) (l : List α) (i : Nat) :
    i ∈ idxWhere p l ↔ ∃ h : i < l.length, p (l.get ⟨i, h⟩) = true := by
  induction l generalizing i with
  | nil => simp [idxWhere]
  | cons x xs ih =>
    simp only [idxWhere, List.mem_append, List.mem_map]
    cases i with
    | zero =>
      constructor
      · rintro (h0 | ⟨j, _, hj0⟩)
        · by_cases hpx : p x
          · exact ⟨Nat.succ_pos _, hpx⟩
          · simp [hpx] at h0
        · omega
      · rintro ⟨_, hx⟩
        left
        have hx0 : p x = true := hx
        simp [hx0]
    | succ k =>
      constructor
      · rintro (h0 | ⟨j, hj, hjk⟩)
        · by_cases hpx : p x <;> simp [hpx] at h0
        · have hk : j = k := by omega
          rw [hk] at hj
          rcases (ih k).mp hj with ⟨h, hp⟩
          exact ⟨by simpa using Nat.succ_lt_succ h, hp⟩
      · rintro ⟨h, hp⟩
        right
        exact ⟨k, (ih k).mpr ⟨by simpa using Nat.lt_of_succ_lt_succ h, hp⟩, rfl⟩

lemma foldl_eraseIdx_map_succ {α : Type} (ps : List Nat) (x : α) (l : List α) :
    (ps.map (· + 1)).foldl List.eraseIdx (x :: l) = x :: ps.foldl List.eraseIdx l := by
  induction ps generalizing l with
  | nil => rfl
  | cons q ps ih =>
    simp only [List.map_cons, List.foldl_cons, List.eraseIdx_cons_succ]
    exact ih _

lemma erase_idxWhere {α : Type} (p : α → Bool) (l : List α) :
    ((idxWhere p l).reverse).foldl List.eraseIdx l = l.filter (fun x => ! p x) := by
  induction l with
  | nil => rfl
  | cons x xs ih =>
    simp only [idxWhere, List.reverse_append, List.foldl_append]
    rw [← List.map_reverse, foldl_eraseIdx_map_succ, ih]
    by_cases hx : p x
    · simp [hx, List.filter_cons]
    · simp [hx, List.filter_cons]

lemma check_gates_eq_filter (qc : Circuit) (online : List Edge) (keep : Edge → Bool) :
    check_gates qc online keep
      = qc.filter (fun ins => ! removedByRealization online keep ins) := by
  unfold check_gates removalPositions
  exact erase_idxWhere _ qc

lemma mem_removalPositions (qc : Circuit) (online : List Edge) (keep : Edge → Bool)
    (i : Nat) :
    i ∈ removalPositions qc online keep
      ↔ ∃ e ∈ online, keep e = false ∧ i ∈ gateAttribution qc e := by
  unfold removalPositions gateAttribution
  rw [List.mem_reverse, mem_idxWhere]
  constructor
  · rintro ⟨h, hp⟩
    cases hins : qc.get ⟨i, h⟩ with
    | rzz q a b =>
      rw [hins] at hp
      simp only [removedByRealization, Bool.and_eq_true, decide_eq_true_eq,
        Bool.not_eq_true'] at hp
      refine ⟨(a, b), hp.1, hp.2, (mem_idxWhere _ qc i).mpr ⟨h, ?_⟩⟩
      rw [hins]
      simp
    | h q => rw [hins] at hp; simp [removedByRealization] at hp
    | rx q c => rw [hins] at hp; simp [removedByRealization] at hp
    | barrier => rw [hins] at hp; simp [removedByRealization] at hp
  · rintro ⟨e, he, hke, hi⟩
    rcases (mem_idxWhere _ qc i).mp hi with ⟨h, hp⟩
    refine ⟨h, ?_⟩
    cases hins : qc.get ⟨i, h⟩ with
    | rzz q a b =>
      rw [hins] at hp
      simp only [decide_eq_true_eq] at hp
      simp only [removedByRealization, Bool.and_eq_true, decide_eq_true_eq,
        Bool.not_eq_true']
      exact ⟨hp ▸ he, hp ▸ hke⟩
    | h q => rw [hins] at hp; simp at hp
    | rx q c => rw [hins] at hp; simp at hp
    | barrier => rw [hins] at hp; simp at hp

lemma filter_flatMap {α β : Type} (l : List α) (g : α → List β) (p : β → Bool) :
    (l.flatMap g).filter p = l.flatMap (fun x => (g x).filter p) := by
  induction l with
  | nil => rfl
  | cons x xs ih => simp [List.flatMap_cons, List.filter_append, ih]

lemma filter_online_map (online : List Edge) (keep : Edge → Bool) (rIdx : Nat)
    (sub : List Edge) (hsub : ∀ e ∈ sub, e ∈ online) :
    (sub.map (fun e => Instr.rzz (Param.a rIdx) e.1 e.2)).filter
        (fun ins => ! removedByRealization online keep ins)
      = (sub.filter keep).map (fun e => Instr.rzz (Param.a rIdx) e.1 e.2) := by
  induction sub with
  | nil => rfl
  | cons e es ih =>
    have he : e ∈ online := hsub e (List.mem_cons_self e es)
    have hes : ∀ x ∈ es, x ∈ online := fun x hx => hsub x (List.mem_cons_of_mem e hx)
    have hred : removedByRealization online keep (Instr.rzz (Param.a rIdx) e.1 e.2)
        = ! keep e := by
      simp [removedByRealization, he]
    simp only [List.map_cons, List.filter_cons, hred, Bool.not_not]
    by_cases hk : keep e
    · simp [hk, ih hes]
    · simp [hk, ih hes]

lemma filter_keeps_offline (online : List Edge) (keep : Edge → Bool) (rIdx : Nat)
    (offline : List Edge) (hdisj : ∀ e ∈ offline, e ∉ online) :
    (offline.map (fun e => Instr.rzz (Param.a rIdx) e.1 e.2)).filter
        (fun ins => ! removedByRealization online keep ins)
      = offline.map (fun e => Instr.rzz (Param.a rIdx) e.1 e.2) := by
  apply List.filter_eq_self.mpr
  intro ins hins
  rcases List.mem_map.mp hins with ⟨e, he, rfl⟩
  simp [removedByRealization, hdisj e he]

lemma filter_keeps_prep (online : List Edge) (keep : Edge → Bool) (n : Nat) :
    (qc_prep n).filter (fun ins => ! removedByRealization online keep ins) = qc_prep n := by
  apply List.filter_eq_self.mpr
  intro ins hins
  unfold qc_prep at hins
  rcases List.mem_append.mp hins with hl | hr
  · rcases List.mem_map.mp hl with ⟨q, _, rfl⟩
    simp [removedByRealization]
  · rcases List.mem_singleton.mp hr with rfl
    simp [removedByRealization]

lemma filter_keeps_mix (online : List Edge) (keep : Edge → Bool) (n rIdx : Nat) :
    (qc_mix n rIdx).filter (fun ins => ! removedByRealization online keep ins)
      = qc_mix n rIdx := by
  apply List.filter_eq_self.mpr
  intro ins hins
  unfold qc_mix at hins
  rcases List.mem_append.mp hins with hl | hr
  · rcases List.mem_append.mp hl with h1 | h2
    · rcases List.mem_singleton.mp h1 with rfl
      simp [removedByRealization]
    · rcases List.mem_map.mp h2 with ⟨q, _, rfl⟩
      simp [removedByRealization]
  · rcases List.mem_singleton.mp hr with rfl
    simp [removedByRealization]

lemma check_gates_eq_recompiled (n reps : Nat) (offline online : List Edge)
    (keep : Edge → Bool) (hdisj : ∀ e ∈ offline, e ∉ online) :
    check_gates (get_uncompiled_circuit n reps offline online true) online keep
      = get_uncompiled_circuit n reps offline (online.filter keep) true := by
  rw [check_gates_eq_filter, get_uncompiled_circuit_eq_layered,
    get_uncompiled_circuit_eq_layered]
  unfold layeredCircuit
  rw [List.filter_append, filter_flatMap, filter_keeps_prep]
  congr 1
  congr 1
  funext rIdx
  rw [List.filter_append, filter_keeps_mix]
  congr 1
  unfold interactionSet
  simp only [if_true]
  rw [List.map_append, List.map_append, List.filter_append]
  rw [filter_keeps_offline online keep rIdx offline hdisj,
    filter_online_map online keep rIdx online (fun e he => he)]

/-- C1: for every generated problem instance and every realized subset of the
online interactions, the corrected circuit returned by the Splice Engine
(`check_gates`) composes to the same element as the circuit obtained by rebuilding
from scratch the base circuit containing exactly the realized online
interactions, under every compositional (monoid-valued) semantics of the
instruction set — in particular under the unitary semantics, where equality of
the composed elements is equality of the realized unitary action (a behavioral,
not a structural, notion of equivalence). -/
theorem check_gates_equiv_recompile (n reps : Nat) (r : Draws) (keep : Edge → Bool)
    (M : Type) [Monoid M] (interp : Instr → M) :
    ((check_gates (get_uncompiled_circuit n reps (offline_time_edges n r)
          (online_time_edges n r) true) (online_time_edges n r) keep).map interp).prod
      = ((get_uncompiled_circuit n reps (offline_time_edges n r)
          ((online_time_edges n r).filter keep) true).map interp).prod := by
  rw [check_gates_eq_recompiled n reps (offline_time_edges n r) (online_time_edges n r)
    keep (fun e he => offline_not_online n r e he)]

/-- Fake backends the source can select in `__init__`. -/
inductive Backend where
  | manila
  | montreal
  | washington
deriving DecidableEq, Repr

/-- Device selection of `__init__`: the smallest fake device whose qubit count
(Manila 5, Montreal 27, Washington 127) fits the problem; for larger sizes none of
the branches fires and `self.backend` stays unset. -/
def selectBackend (n : Nat) : Option Backend :=
  if n ≤ 5 then some Backend.manila
  else if n ≤ 27 then some Backend.montreal
  else if n ≤ 127 then some Backend.washington
  else none

/-- Arguments of one call of the external `qiskit.transpile`.  The coupling map and
the basis gates are recorded by the backend whose configuration supplies them
(`none` when the argument is not passed at all). -/
structure TranspileArgs where
  circuit : Circuit
  coupling_map : Option Backend
  basis_gates : Option Backend
  initial_layout : Option (List Nat)
  layout_method : Option String
  optimization_level : Nat
deriving DecidableEq, Repr

/-- Problem instance as fixed by `Partial_QAOA.__init__`: size, repetitions, the
draw stream of the randomized interaction sets, and the selected backend. -/
structure QAOAInstance where
  num_qubits : Nat
  repetitions : Nat
  draws : Draws
  backend : Backend

/-- Offline interaction set of the instance. -/
def QAOAInstance.offline (self : QAOAInstance) : List Edge :=
  offline_time_edges self.num_qubits self.draws

/-- Online interaction set of the instance. -/
def QAOAInstance.online (self : QAOAInstance) : List Edge :=
  online_time_edges self.num_qubits self.draws

/-- Mutable state of a `Partial_QAOA` object: the `self.mapping` field, plus the log
of the transpile calls issued so far (the observable interactions with the external
compiler, used to express caching behavior). -/
structure QAOAState where
  mapping : List Nat
  compileLog : List TranspileArgs

/-- Arguments of the transpile call of `compile_without_mapping`: basis gates only,
no coupling map, no layout pinning. -/
def compile_without_mapping_args (self : QAOAInstance) (qc : Circuit) (opt_level : Nat) :
    TranspileArgs :=
  { circuit := qc, coupling_map := none, basis_gates := some self.backend,
    initial_layout := none, layout_method := none, optimization_level := opt_level }

/-- Arguments of the transpile call of `compile_with_mapping`: basis gates, the
stored mapping pinned as `initial_layout`, the device coupling map, and the
`"trivial"` layout method. -/
def compile_with_mapping_args (self : QAOAInstance) (mapping : List Nat) (qc : Circuit)
    (opt_level : Nat) : TranspileArgs :=
  { circuit := qc, coupling_map := some self.backend, basis_gates := some self.backend,
    initial_layout := some mapping, layout_method := some "trivial",
    optimization_level := opt_level }

/-- Arguments of the transpile call of `compile_full_circuit`: the composed base
circuit with all online interactions, the device coupling map and basis gates, and
`optimization_level=1`; the state (in particular `self.mapping`) is not consulted. -/
def compile_full_circuit_args (self : QAOAInstance) (_s : QAOAState) : TranspileArgs :=
  { circuit := get_uncompiled_circuit self.num_qubits self.repetitions self.offline
      self.online true,
    coupling_map := some self.backend, basis_gates := some self.backend,
    initial_layout := none, layout_method := none, optimization_level := 1 }

/-- Arguments of the transpile call inside `determine_mapping`: the composed
offline-only circuit, the device coupling map and basis gates, and
`optimization_level=3`. -/
def determine_mapping_transpile_args (self : QAOAInstance) : TranspileArgs :=
  { circuit := get_uncompiled_circuit self.num_qubits self.repetitions self.offline
      self.online false,
    coupling_map := some self.backend, basis_gates := some self.backend,
    initial_layout := none, layout_method := none, optimization_level := 3 }

/-- Extraction loop of `determine_mapping`: iterate the virtual bits of the initial
layout of the transpiled circuit, skip the ones of the `"ancilla"` register, and
collect the physical index of the rest. -/
def extractMapping (layout : List (String × Nat)) : List Nat :=
  (layout.filter (fun vb => vb.1 ≠ "ancilla")).map (fun vb => vb.2)

/-- Body of `determine_mapping`: rebuild the uncompiled circuits, compose them,
transpile the composed offline-only circuit, extract the non-ancilla mapping, and
overwrite `self.mapping`.  The external transpiler is abstracted by `layoutFn`,
which returns the virtual-bit iteration (register name, physical index) of the
initial layout of the transpiled circuit for given call arguments; the call is
appended to the log. -/
def determine_mapping (self : QAOAInstance)
    (layoutFn : TranspileArgs → List (String × Nat)) (s : QAOAState) :
    List Nat × QAOAState :=
  let args := determine_mapping_transpile_args self
  let mapping := extractMapping (layoutFn args)
  (mapping, { mapping := mapping, compileLog := s.compileLog ++ [args] })

/-- Per-repetition uncompiled online-edge circuits (`get_uncompiled_online_edges`):
for each repetition `i`, one `rzz` with parameter `a_i` per online edge. -/
def get_uncompiled_online_edges (self : QAOAInstance) : List Circuit :=
  (List.range self.repetitions).map
    (fun i => self.online.map (fun e => Instr.rzz (Param.a i) e.1 e.2))

/-- Body of `get_compiled_online_edges`: `assert self.mapping` raises
`AssertionError` when the mapping list is empty (falsy); otherwise every
uncompiled online-edge circuit is compiled with the stored mapping at
`opt_level=1`. -/
def get_compiled_online_edges (self : QAOAInstance) (s : QAOAState) :
    Except String (List TranspileArgs) :=
  if s.mapping = [] then Except.error "AssertionError"
  else Except.ok ((get_uncompiled_online_edges self).map
    (fun qc => compile_with_mapping_args self s.mapping qc 1))

/-- Concrete two-qubit instance used by the closed counterexamples: both offline
candidates drawn, selected backend Manila. -/
def inst2 : QAOAInstance :=
  { num_qubits := 2, repetitions := 1, draws := fun _ => true,
    backend := Backend.manila }

/-- Concrete layout oracle used by the closed counterexamples. -/
def layoutFn2 : TranspileArgs → List (String × Nat) :=
  fun _ => [("q", 0), ("q", 1)]

/-- C3 counterexample: on a concrete instance whose stored mapping is `[0, 1]`, the
transpile call issued by `compile_full_circuit` carries no `initial_layout` at all,
in particular not the previously determined mapping. -/
theorem compile_full_circuit_layout_cex :
    (compile_full_circuit_args inst2 { mapping := [0, 1], compileLog := [] }).initial_layout
        = none
      ∧ (compile_full_circuit_args inst2
          { mapping := [0, 1], compileLog := [] }).initial_layout ≠ some [0, 1] := by
  exact ⟨rfl, by decide⟩

/-- C3 (amended): `compile_full_circuit` transpiles the composed base circuit
containing all online interactions against the device coupling map and basis gates
at `optimization_level=1` with the layout left free: no `initial_layout` and no
`layout_method` argument is passed, so the instance's fixed mapping is not pinned,
contrary to the claim. -/
theorem compile_full_circuit_free_layout (self : QAOAInstance) (s : QAOAState) :
    (compile_full_circuit_args self s).initial_layout = none
      ∧ (compile_full_circuit_args self s).layout_method = none
      ∧ (compile_full_circuit_args self s).optimization_level = 1
      ∧ (compile_full_circuit_args self s).coupling_map = some self.backend
      ∧ (compile_full_circuit_args self s).basis_gates = some self.backend
      ∧ (compile_full_circuit_args self s).circuit
          = layeredCircuit self.num_qubits self.repetitions (self.offline ++ self.online) := by
  refine ⟨rfl, rfl, rfl, rfl, rfl, ?_⟩
  show get_uncompiled_circuit self.num_qubits self.repetitions self.offline self.online true
      = _
  rw [get_uncompiled_circuit_eq_layered]
  unfold interactionSet
  simp

/-- C4 counterexample: calling `determine_mapping` twice on the same concrete
instance issues two transpile calls — the layout is recomputed on the second
request, not served from a cache as the claim states. -/
theorem determine_mapping_recompute_cex :
    ((determine_mapping inst2 layoutFn2
        (determine_mapping inst2 layoutFn2 { mapping := [], compileLog := [] }).2).2).compileLog.length
      ≠ 1 := by
  decide

/-- C4 (amended): `determine_mapping` recomputes the mapping on every call — each
call rebuilds the offline circuit, issues one more transpile call and overwrites
`self.mapping` — and, the external compiler being a deterministic function of its
arguments, the second call returns the same mapping as the first; nothing is
cached or reused. -/
theorem determine_mapping_deterministic_not_cached (self : QAOAInstance)
    (layoutFn : TranspileArgs → List (String × Nat)) (s : QAOAState) :
    (determine_mapping self layoutFn
          (determine_mapping self layoutFn s).2).1
        = (determine_mapping self layoutFn s).1
      ∧ ((determine_mapping self layoutFn
          (determine_mapping self layoutFn s).2).2).mapping
        = (determine_mapping self layoutFn s).1
      ∧ ((determine_mapping self layoutFn
          (determine_mapping self layoutFn s).2).2).compileLog.length
        = s.compileLog.length + 2 := by
  refine ⟨rfl, rfl, ?_⟩
  unfold determine_mapping
  simp

/-- C6: `determine_mapping` transpiles the offline-only circuit, composed across
all repetitions with interaction and mixing layers in order, at
`optimization_level=3` against the device coupling map and basis gates, with no
pinned layout; and whenever the external compiler returns a layout that is
injective on physical qubits and carries exactly `num_qubits` non-ancilla virtual
bits (the bijection contract of the Compiler Adapter), the extracted mapping
excludes the ancilla-register bits, has length exactly `num_qubits`, and its
physical indices are pairwise distinct. -/
theorem determine_mapping_contract (self : QAOAInstance)
    (layoutFn : TranspileArgs → List (String × Nat)) (s : QAOAState)
    (hcount : ((layoutFn (determine_mapping_transpile_args self)).filter
        (fun vb => vb.1 ≠ "ancilla")).length = self.num_qubits)
    (hinj : ((layoutFn (determine_mapping_transpile_args self)).map
        (fun vb => vb.2)).Nodup) :
    (determine_mapping self layoutFn s).1.length = self.num_qubits
      ∧ (determine_mapping self layoutFn s).1.Nodup
      ∧ (determine_mapping_transpile_args self).optimization_level = 3
      ∧ (determine_mapping_transpile_args self).initial_layout = none
      ∧ (determine_mapping_transpile_args self).coupling_map = some self.backend
      ∧ (determine_mapping_transpile_args self).circuit
          = layeredCircuit self.num_qubits self.repetitions self.offline := by
  refine ⟨?_, ?_, rfl, rfl, rfl, ?_⟩
  · show (extractMapping (layoutFn (determine_mapping_transpile_args self))).length = _
    unfold extractMapping
    rw [List.length_map]
    exact hcount
  · show (extractMapping (layoutFn (determine_mapping_transpile_args self))).Nodup
    unfold extractMapping
    exact List.Nodup.sublist
      (List.Sublist.map _ (List.filter_sublist _)) hinj
  · show get_uncompiled_circuit self.num_qubits self.repetitions self.offline
        self.online false = _
    rw [get_uncompiled_circuit_eq_layered]
    unfold interactionSet
    simp

/-- Concrete layout oracle with one ancilla bit, for the C6 witness. -/
def layoutFn3 : TranspileArgs → List (String × Nat) :=
  fun _ => [("q", 0), ("ancilla", 5), ("q", 3)]

theorem determine_mapping_contract_witness :
    (determine_mapping inst2 layoutFn3 { mapping := [], compileLog := [] }).1.length
        = inst2.num_qubits
      ∧ (determine_mapping inst2 layoutFn3 { mapping := [], compileLog := [] }).1.Nodup
      ∧ (determine_mapping_transpile_args inst2).optimization_level = 3
      ∧ (determine_mapping_transpile_args inst2).initial_layout = none
      ∧ (determine_mapping_transpile_args inst2).coupling_map = some inst2.backend
      ∧ (determine_mapping_transpile_args inst2).circuit
          = layeredCircuit inst2.num_qubits inst2.repetitions inst2.offline :=
  determine_mapping_contract inst2 layoutFn3 { mapping := [], compileLog := [] }
    (by decide) (by decide)

/-- C8: when the Layout Mapping has not been computed (the `mapping` field is the
empty list, hence falsy), `get_compiled_online_edges` fails with the
`AssertionError` of `assert self.mapping`, surfaced to the caller; no default or
fallback result is produced. -/
theorem get_compiled_online_edges_requires_mapping (self : QAOAInstance)
    (s : QAOAState) (hmap : s.mapping = []) :
    get_compiled_online_edges self s = Except.error "AssertionError" := by
  unfold get_compiled_online_edges
  rw [if_pos hmap]

theorem get_compiled_online_edges_requires_mapping_witness :
    get_compiled_online_edges inst2 { mapping := [], compileLog := [] }
      = Except.error "AssertionError" :=
  get_compiled_online_edges_requires_mapping inst2 { mapping := [], compileLog := [] } rfl

lemma sampleEdges_eq (r : Draws) (k : Nat) (es : List Edge) :
    sampleEdges r k es
      = (((es.enumFrom k).filter (fun p => r p.1)).map Prod.snd, k + es.length) := by
  induction es generalizing k with
  | nil => simp [sampleEdges]
  | cons e es ih =>
    simp only [sampleEdges, List.enumFrom_cons, List.filter_cons, ih (k + 1),
      List.length_cons]
    by_cases hk : r k
    · simp only [hk, if_true, List.map_cons, Prod.mk.injEq]
      exact ⟨trivial, by omega⟩
    · simp only [hk, Bool.false_eq_true, if_false, Prod.mk.injEq]
      exact ⟨trivial, by omega⟩

lemma offlineCandidates_length (n : Nat) : (offlineCandidates n).length = n - 1 := by
  unfold offlineCandidates
  rw [List.length_map, List.length_range']

lemma offlineCandidates_nodup (n : Nat) : (offlineCandidates n).Nodup := by
  unfold offlineCandidates
  exact List.Nodup.map (fun x y hxy => by simpa using hxy) (List.nodup_range' 1 (n - 1))

lemma onlineCandidates_nodup (n : Nat) : (onlineCandidates n).Nodup := by
  unfold onlineCandidates
  rw [List.nodup_flatMap]
  constructor
  · intro i _
    exact List.Nodup.map (fun x y hxy => by simpa using hxy)
      (List.nodup_range' (i + 1) (n - 1 - i))
  · refine List.Pairwise.imp ?_ (List.nodup_range' 1 (n - 1))
    intro i j hij e hei hej
    rcases List.mem_map.mp hei with ⟨x, _, rfl⟩
    rcases List.mem_map.mp hej with ⟨y, _, hxy⟩
    exact hij (by simpa using congrArg Prod.fst hxy.symm)

/-- C5: the Interaction Generator draws the offline set exactly over the candidate
pairs `(0, i)`, `1 ≤ i < num_qubits`, consuming one fresh Bernoulli draw per
candidate (stream positions `0, 1, ...` in candidate order), and the online set
exactly over the candidate pairs `(i, j)`, `1 ≤ i < j < num_qubits`, consuming one
fresh draw per candidate at the stream positions following the offline loop — so
every candidate pair of either set is included exactly when its own, distinct,
independent trial succeeds, with success probability
`P_SAMPLE_TWO_QUBIT_GATE = 0.5`. -/
theorem interaction_generator_characterization (n : Nat) (r : Draws) :
    offline_time_edges n r
        = (((offlineCandidates n).enumFrom 0).filter (fun p => r p.1)).map Prod.snd
      ∧ online_time_edges n r
        = (((onlineCandidates n).enumFrom (n - 1)).filter (fun p => r p.1)).map Prod.snd
      ∧ (∀ e : Edge, e ∈ offlineCandidates n ↔ e.1 = 0 ∧ 1 ≤ e.2 ∧ e.2 < n)
      ∧ (∀ e : Edge, e ∈ onlineCandidates n ↔ 1 ≤ e.1 ∧ e.1 < e.2 ∧ e.2 < n)
      ∧ (offlineCandidates n).Nodup
      ∧ (onlineCandidates n).Nodup := by
  refine ⟨?_, ?_, mem_offlineCandidates n, mem_onlineCandidates n,
    offlineCandidates_nodup n, onlineCandidates_nodup n⟩
  · unfold offline_time_edges
    rw [sampleEdges_eq]
  · unfold online_time_edges
    rw [sampleEdges_eq, sampleEdges_eq]
    simp [offlineCandidates_length]

/-- Parameter names of the signature of `evaluate_QAOA` (evaluator.py). -/
def evaluate_QAOA_params : List String :=
  ["num_qubits", "repetitions", "sample_probability", "considered_following_qubits"]

/-- Field names of the `Result` TypedDict (evaluator.py), in declaration order. -/
def resultFields : List String :=
  ["num_qubits", "num_repetitions", "sample_probability", "time_baseline",
   "time_new_scheme_without_swap_opt", "time_new_scheme_with_swap_opt",
   "time_ratio_without_swap_opt", "time_ratio_with_swap_opt",
   "cx_count_ratio_without_swap_opt", "cx_count_ratio_with_swap_opt",
   "expected_fidelity_new_scheme_without_swap_opt",
   "expected_fidelity_new_scheme_with_swap_opt",
   "expected_fidelity_baseline", "considered_following_qubits"]

/-- Field names the specification lists for the benchmarking result record,
restated from its words for comparison with `resultFields`. -/
def specResultFields : List String :=
  ["num_qubits", "num_repetitions", "sample_probability", "time_baseline",
   "time_new_scheme_without_swap_opt", "time_new_scheme_with_swap_opt",
   "time_ratio_without_swap_opt", "time_ratio_with_swap_opt",
   "cx_count_ratio_without_swap_opt", "cx_count_ratio_with_swap_opt",
   "expected_fidelity_new_scheme_without_swap_opt",
   "expected_fidelity_new_scheme_with_swap_opt",
   "expected_fidelity_baseline", "considered_following_qubits"]

/-- Keys of the dictionary built by the `Result(...)` call at the end of
`evaluate_QAOA`, in the keyword order of that call site (a TypedDict is a plain
dict at run time, so this is the key-iteration order of a returned result). -/
def evaluate_QAOA_result_keys : List String :=
  ["num_qubits", "num_repetitions", "sample_probability", "time_baseline",
   "time_ratio_without_swap_opt", "time_ratio_with_swap_opt",
   "time_new_scheme_without_swap_opt", "time_new_scheme_with_swap_opt",
   "cx_count_ratio_without_swap_opt", "cx_count_ratio_with_swap_opt",
   "expected_fidelity_new_scheme_without_swap_opt",
   "expected_fidelity_new_scheme_with_swap_opt",
   "expected_fidelity_baseline", "considered_following_qubits"]

/-- Python call binding for a function without a catch-all keyword parameter: a
keyword argument whose name is not among the parameter names raises `TypeError`. -/
def bindKwargs (paramNames : List String) (kwargs : List String) : Except String Unit :=
  match kwargs.find? (fun kw => ! paramNames.contains kw) with
  | some kw => Except.error ("TypeError: unexpected keyword argument " ++ kw)
  | none => Except.ok ()

/-- Body of `eval_single_instance` (driver.py): calls `evaluate_QAOA` with the two
positional arguments and the keyword arguments `sample_probability`,
`optimize_swaps` and `opt_level_baseline`.  Only the binding of the call is
modelled — the argument values cannot influence it — and the result value of a
successful call is the key/value dictionary of `evaluate_QAOA`, whose numeric
values are external measurements (opaque here, and never produced since the
binding fails). -/
def eval_single_instance (_num_qubits _num_reps : Nat) (_sample_probability : ℚ)
    (_optimize_swaps : Bool) (_opt_level_baseline : Nat) :
    Except String (List (String × String)) :=
  match bindKwargs evaluate_QAOA_params
      ["sample_probability", "optimize_swaps", "opt_level_baseline"] with
  | Except.error msg => Except.error msg
  | Except.ok _ => Except.ok (evaluate_QAOA_result_keys.map (fun kName => (kName, "")))

/-- Construction of `res_csv` in `eval_all_instances`: the key list of the first
result, then the value list of every result.  On an empty result list the source
would raise `IndexError` at `results[0]`, which cannot happen since the sweep is
nonempty. -/
def res_csv (results : List (List (String × String))) : List (List String) :=
  match results with
  | [] => []
  | r0 :: _ => (r0.map Prod.fst) :: results.map (fun res => res.map Prod.snd)

/-- Formatting of `np.savetxt(..., delimiter=",", fmt="%s")`: one text line per
row, the cells joined by commas. -/
def savetxt_lines (rows : List (List String)) : List String :=
  rows.map (fun row => String.intercalate "," row)

/-- Body of `eval_all_instances` (driver.py): evaluate every instance of
`range(3, 50, 5)` (the joblib pool re-raises the first task exception), build
`res_csv`, and produce the lines written to `res.csv`. -/
def eval_all_instances : Except String (List String) := do
  let results ← (List.range' 3 10 5).mapM
    (fun nq => eval_single_instance nq 3 (1 / 2 : ℚ) false 2)
  pure (savetxt_lines (res_csv results))

/-- C10: every call of `eval_single_instance` raises `TypeError`, because it passes
the keyword arguments `optimize_swaps` and `opt_level_baseline` that the signature
of `evaluate_QAOA` does not accept; consequently `eval_all_instances` always fails
before building `res_csv`, and never produces a result file. -/
theorem eval_single_instance_type_error (nq nr : Nat) (sp : ℚ) (os : Bool)
    (olb : Nat) :
    eval_single_instance nq nr sp os olb
        = Except.error "TypeError: unexpected keyword argument optimize_swaps"
      ∧ eval_all_instances
        = Except.error "TypeError: unexpected keyword argument optimize_swaps" :=
  ⟨rfl, rfl⟩

/-- C9: the `Result` record declares exactly the fields the claim lists (and the
returned dictionary carries exactly those keys), and the write path of
`eval_all_instances` formats the results as a flat comma-delimited text table with
the header row of field names first — but, because every `eval_single_instance`
task raises `TypeError` (the stale keyword arguments of the driver), the sweep
always fails and the table is never written; this is the divergence between the
claim and the shipped code. -/
theorem result_record_fields_and_write_failure :
    resultFields = specResultFields
      ∧ evaluate_QAOA_result_keys.Perm resultFields
      ∧ (∀ (r0 : List (String × String)) (rest : List (List (String × String))),
          savetxt_lines (res_csv (r0 :: rest))
            = String.intercalate "," (r0.map Prod.fst)
              :: (r0 :: rest).map (fun res => String.intercalate "," (res.map Prod.snd)))
      ∧ eval_all_instances
        = Except.error "TypeError: unexpected keyword argument optimize_swaps" := by
  refine ⟨rfl, by decide, ?_, rfl⟩
  intro r0 rest
  simp [savetxt_lines, res_csv]

end PartialCompiler
